import Mathlib

/-!
Shallow embedding of `src/lib/beseech.js` (an interactive command-line
prompting utility) and proofs about its line readers, prompt/validator
loop, sequential batch driver, result assembler and session lifecycle.
-/

set_option maxRecDepth 4000

namespace Beseech

/-! ## JavaScript string primitives used by the source

All primitives are defined over the character list of the string so that
they evaluate inside the kernel. -/

/-- JS whitespace as trimmed by `String.prototype.trim` (ASCII part). -/
def jsIsSpace (c : Char) : Bool :=
  c = ' ' || c = '\t' || c = '\n' || c = '\r'

/-- JS `s.trim()`. -/
def jsTrim (s : String) : String :=
  String.mk (((s.toList.dropWhile jsIsSpace).reverse.dropWhile jsIsSpace).reverse)

/-- JS `s.replace(/\r/g, '')`: remove every carriage return. -/
def stripCR (s : String) : String :=
  String.mk (s.toList.filter (fun c => c ≠ '\r'))

/-- JS `s.replace(/^\n+/, '')`: remove leading newlines. -/
def stripLeadingNL (s : String) : String :=
  String.mk (s.toList.dropWhile (fun c => c = '\n'))

/-- Whether the string contains a newline character. -/
def containsNL (s : String) : Bool :=
  s.toList.any (fun c => c = '\n')

/-- JS `s.indexOf('\n')`: index of the first newline, `-1` if absent. -/
def jsIndexOfNewline (s : String) : Int :=
  if containsNL s then ((s.toList.findIdx (fun c => c = '\n')) : Int) else -1

/-- JS `s.substr(start)`: suffix from `start`; a negative `start` counts
from the end of the string, clamped at `0`. -/
def jsSubstrFrom (s : String) (i : Int) : String :=
  let n : Int := (s.toList.length : Int)
  let st : Int := if i < 0 then max (n + i) 0 else min i n
  String.mk (s.toList.drop st.toNat)

/-- JS `s.toLowerCase()` (ASCII). -/
def jsToLower (s : String) : String :=
  String.mk (s.toList.map Char.toLower)

/-- JS `key.split('.')` on a list of characters. -/
def splitDotAux : List Char → List Char → List String
  | [], acc => [String.mk acc.reverse]
  | c :: rest, acc =>
    if c = '.' then String.mk acc.reverse :: splitDotAux rest []
    else splitDotAux rest (c :: acc)

/-- JS `key.split('.')`. -/
def jsSplitDot (s : String) : List String :=
  splitDotAux s.toList []

/-! ## Cooked line reader (`beseech.readLine`, lines 245-268)

The `data` handler accumulates `value`, strips carriage returns, and on
seeing a newline splits the accumulation: the suffix from the first
newline (inclusive) goes into the local `buffer`, the prefix is assigned
to the stray global `val` (never read), and the callback receives
`value.trim()` of the whole accumulation. -/

/-- One step of `readLine`'s `data` handler.  `Sum.inl (value, buffer)`
means the handler returned without completing; `Sum.inr (result, buffer)`
means the callback fired with `result` (the computed `buffer` is a local
of the call and is discarded when the call resolves). -/
def readLineData (value buffer chunk : String) :
    (String × String) ⊕ (String × String) :=
  let v := stripCR (value ++ buffer ++ chunk)
  if containsNL v then
    let v := if v ≠ "\n" then stripLeadingNL v else v
    let idx := jsIndexOfNewline v
    let buf := jsSubstrFrom v idx
    Sum.inr (jsTrim v, buf)
  else
    Sum.inl (v, "")

/-- A whole `readLine` call against a queue of pending stream chunks:
processes chunks until the handler completes, returning the callback's
line together with the chunks not yet delivered.  `none` means the read
is still pending (blocked waiting for input). -/
def runReadLine : String → String → List String → Option (String × List String)
  | _, _, [] => none
  | value, buffer, c :: rest =>
    match readLineData value buffer c with
    | Sum.inl (v, b) => runReadLine v b rest
    | Sum.inr (res, _) => some (res, rest)

/-- `beseech.readLine` begins each call with fresh `value = ''`,
`buffer = ''`. -/
def readLineCall (chunks : List String) : Option (String × List String) :=
  runReadLine "" "" chunks

/-! ## Raw (hidden) line reader (`beseech.readLineHidden`, lines 275-302)

The `data` handler is modelled as a pure function from the accumulator
and the incoming chunk to the new accumulator plus the ordered list of
side effects the handler performs. -/

deriving instance DecidableEq for Except

/-- An observable side effect of a reader handler, in the order the
source performs it. -/
inductive Eff
  | setRawMode (b : Bool)
  | removeData
  | removeError
  | write (s : String)
  | flush
  | pause
  | callback (r : Except String String)
  | exitProc (code : Nat)
deriving DecidableEq, Repr

/-- The chunks the hidden reader's `switch` treats as line terminators. -/
def isTerminatorChunk (c : String) : Bool :=
  c = "\n" || c = "\r" || c = "\r\n" || c = "\u0004"

/-- The chunks the hidden reader's `switch` treats as interrupt/cancel. -/
def isInterruptChunk (c : String) : Bool :=
  c = "\u0003" || c = "\u0000"

/-- One step of `readLineHidden`'s `data` handler: the new
`(value, buffer)` accumulator and the effects performed, in source
order. -/
def rlhHandleData (value buffer c : String) :
    (String × String) × List Eff :=
  if isTerminatorChunk c then
    ((jsTrim value, buffer),
      [Eff.setRawMode false, Eff.removeData, Eff.removeError,
       Eff.write "\n", Eff.flush, Eff.pause,
       Eff.callback (Except.ok (jsTrim value))])
  else if isInterruptChunk c then
    ((value, buffer), [Eff.write "\n", Eff.exitProc 1])
  else
    ((value ++ buffer ++ c, ""), [])

/-! ## Event machine for both readers

Tracks the listener attachments, the session pause flag, the terminal
raw-mode flag and every callback invocation, so that behaviour after a
stream error can be stated. -/

/-- An event emitted by the bound input stream. -/
inductive InEvent
  | data (chunk : String)
  | errorEvt (e : String)
deriving DecidableEq, Repr

/-- State of one in-flight read: the accumulator, whether the `data` /
`error` listeners are still attached, whether the session is paused,
whether the terminal is in raw mode, whether the process has exited,
every callback invocation so far, and every write to output. -/
structure RState where
  value : String
  buffer : String
  dataAttached : Bool
  errAttached : Bool
  sPaused : Bool
  rawMode : Bool
  exited : Bool
  calls : List (Except String String)
  outWrites : List String
deriving DecidableEq, Repr

/-- State at the start of a `readLine` call: fresh accumulator, both
listeners attached, input resumed. -/
def rlInit : RState :=
  { value := ""
    buffer := ""
    dataAttached := true
    errAttached := true
    sPaused := false
    rawMode := false
    exited := false
    calls := []
    outWrites := [] }

/-- State at the start of a `readLineHidden` call: as `rlInit` but the
terminal is put into raw mode. -/
def rlhInit : RState :=
  { rlInit with rawMode := true }

/-- Apply one effect to the machine state. -/
def applyEff (st : RState) : Eff → RState
  | Eff.setRawMode b => { st with rawMode := b }
  | Eff.removeData => { st with dataAttached := false }
  | Eff.removeError => { st with errAttached := false }
  | Eff.write s => { st with outWrites := st.outWrites ++ [s] }
  | Eff.flush => st
  | Eff.pause => { st with sPaused := true }
  | Eff.callback r => { st with calls := st.calls ++ [r] }
  | Eff.exitProc _ => { st with exited := true }

/-- `readLine`'s reaction to one stream event.  The `error` listener is
`callback` itself, so an error event invokes the callback and removes
nothing; the `data` listener runs `readLineData` and, on completion,
pauses input, detaches both listeners and invokes the callback. -/
def rlStep (st : RState) : InEvent → RState
  | InEvent.errorEvt e =>
    if st.errAttached then { st with calls := st.calls ++ [Except.error e] }
    else st
  | InEvent.data c =>
    if st.dataAttached then
      match readLineData st.value st.buffer c with
      | Sum.inl (v, b) => { st with value := v, buffer := b }
      | Sum.inr (res, b) =>
        { st with
          value := res
          buffer := b
          sPaused := true
          dataAttached := false
          errAttached := false
          calls := st.calls ++ [Except.ok res] }
    else st

/-- `readLineHidden`'s reaction to one stream event, via
`rlhHandleData`'s effect list. -/
def rlhStep (st : RState) : InEvent → RState
  | InEvent.errorEvt e =>
    if st.exited then st
    else if st.errAttached then { st with calls := st.calls ++ [Except.error e] }
    else st
  | InEvent.data c =>
    if st.exited then st
    else if st.dataAttached then
      let r := rlhHandleData st.value st.buffer c
      r.2.foldl applyEff { st with value := r.1.1, buffer := r.1.2 }
    else st

/-- Run a reader machine over a list of stream events. -/
def runEvents (step : RState → InEvent → RState) (st : RState)
    (evs : List InEvent) : RState :=
  evs.foldl step st

/-! ## Prompt/validator loop (`beseech.getInput`, lines 138-190)

The readers are abstracted as a script: the list of outcomes successive
line reads deliver (`Except.error e` for a stream error, `Except.ok l`
for a trimmed submitted line).  Each read consumes one script entry;
an exhausted script means the read is still pending. -/

/-- A validator: either pattern-style (an object with a `.test` method,
e.g. a regular expression) or predicate-style (a bare function).  The
source dispatches on the presence of `.test`. -/
inductive Validator
  | pattern (test : String → Bool)
  | pred (f : String → Bool)

/-- `prop.validator.test ? prop.validator.test(line) : prop.validator(line)`. -/
def runValidator : Validator → String → Bool
  | Validator.pattern t, l => t l
  | Validator.pred f, l => f l

/-- A field descriptor (`prop`).  Optional string attributes model JS
properties that may be absent. -/
structure Field where
  name : String
  message : Option String := none
  dflt : Option String := none
  hidden : Bool := false
  validator : Option Validator := none
  warning : Option String := none
  help : List String := []

/-- JS truthiness of an optional string property. -/
def strTruthy : Option String → Bool
  | some s => s ≠ ""
  | none => false

/-- `prop.message || prop.name` (the further `|| prop` fallback applies
only to bare-string props, which are modelled by `Field.ofName`). -/
def displayName (f : Field) : String :=
  match f.message with
  | some m => if m ≠ "" then m else f.name
  | none => f.name

/-- The prompt text written before each read:
`['prompt', ': ' + name, ': '].join('')`, with `' (' + default + ')'`
spliced in before the final `': '` when the default is truthy
(ANSI color codes elided). -/
def promptMsg (f : Field) : String :=
  "prompt" ++ ": " ++ displayName f ++
    (match f.dflt with
     | some d => if d ≠ "" then " (" ++ d ++ ")" else ""
     | none => "") ++ ": "

/-- `if (!line || line === '') line = prop.default || line`. -/
def substDefault (f : Field) (line : String) : String :=
  if line = "" then
    match f.dflt with
    | some d => if d ≠ "" then d else line
    | none => line
  else line

/-- `if (prop.warning) logger.error(prop.warning)`. -/
def warnLogs (f : Field) : List String :=
  match f.warning with
  | some w => if w ≠ "" then [w] else []
  | none => []

/-- The validation-failure log messages of one rejected attempt:
`'Invalid input for ' + name` followed by the warning, if truthy. -/
def invalidLogs (f : Field) : List String :=
  ("Invalid input for " ++ displayName f) :: warnLogs f

/-- The logging and prompt writes `getInput` performs, grouped by kind. -/
structure GTrace where
  prompts : List String
  errlogs : List String
  inputs : List String
  helps : List String
deriving DecidableEq, Repr

/-- Trace of one attempt that reaches a read. -/
def attemptTrace (f : Field) : GTrace :=
  { prompts := [promptMsg f], errlogs := [], inputs := [], helps := f.help }

/-- Concatenate the traces of successive attempts / fields. -/
def GTrace.append (a b : GTrace) : GTrace :=
  { prompts := a.prompts ++ b.prompts
    errlogs := a.errlogs ++ b.errlogs
    inputs := a.inputs ++ b.inputs
    helps := a.helps ++ b.helps }

/-- The empty trace. -/
def GTrace.empty : GTrace :=
  { prompts := [], errlogs := [], inputs := [], helps := [] }

/-- Script of read outcomes delivered to the loop. -/
abbrev Script := List (Except String String)

/-- `beseech.getInput` against a script: logs help, writes the prompt,
reads one line; a stream error is passed to the callback; otherwise the
empty line is replaced by the default, the validator (if any) is run,
and on failure the error is logged and the whole prompt is re-issued by
recursion; on success the accepted line is logged and delivered.
Returns the callback argument, the unconsumed script, and the trace;
`none` when the script is exhausted before the field resolves. -/
def getInput (f : Field) : Script → Option (Except String String × Script × GTrace)
  | [] => none
  | Except.error e :: rest => some (Except.error e, rest, attemptTrace f)
  | Except.ok line :: rest =>
    let line := substDefault f line
    match f.validator with
    | some v =>
      if runValidator v line then
        some (Except.ok line, rest,
          { attemptTrace f with inputs := [line] })
      else
        match getInput f rest with
        | none => none
        | some (res, rem, tr) =>
          some (res, rem,
            GTrace.append { attemptTrace f with errlogs := invalidLogs f } tr)
    | none =>
      some (Except.ok line, rest, { attemptTrace f with inputs := [line] })

/-! ## Sequential batch driver (`beseech.get`, lines 103-130) -/

/-- An element of the list passed to `get`: a bare string or a field
descriptor. -/
inductive FieldRef
  | name (s : String)
  | descr (f : Field)

/-- A bare string prop behaves as a descriptor whose only attribute is
its name (`prop.message || prop.name || prop` falls through to the
string itself). -/
def refField : FieldRef → Field
  | FieldRef.name s => { name := s }
  | FieldRef.descr f => f

/-- `target.name || target`: the key the result record is stored under. -/
def refKey : FieldRef → String
  | FieldRef.name s => s
  | FieldRef.descr f => f.name

/-- The `vars.map` step of `get`: a string is lowercased and looked up
in `beseech.properties` (the known-fields registry `reg`); a registered
name is replaced by its descriptor. -/
def normalizeVar (reg : String → Option Field) : FieldRef → FieldRef
  | FieldRef.name s =>
    match reg (jsToLower s) with
    | some f => FieldRef.descr f
    | none => FieldRef.name (jsToLower s)
  | FieldRef.descr f => FieldRef.descr f

/-- `async.forEachSeries(vars, get, ...)`: run `getInput` for each field
strictly in order, threading the script; the first error aborts the
remaining fields; otherwise the result record lists `(key, line)` pairs
in field order. -/
def getSeq : List FieldRef → Script →
    Option (Except String (List (String × String)) × Script × GTrace)
  | [], script => some (Except.ok [], script, GTrace.empty)
  | f :: rest, script =>
    match getInput (refField f) script with
    | none => none
    | some (Except.error e, rem, tr) => some (Except.error e, rem, tr)
    | some (Except.ok line, rem, tr) =>
      match getSeq rest rem with
      | none => none
      | some (Except.error e, rem2, tr2) =>
        some (Except.error e, rem2, tr.append tr2)
      | some (Except.ok results, rem2, tr2) =>
        some (Except.ok ((refKey f, line) :: results), rem2, tr.append tr2)

/-- `beseech.get`: normalize the field list, then run it sequentially. -/
def get (reg : String → Option Field) (msg : List FieldRef) (script : Script) :
    Option (Except String (List (String × String)) × Script × GTrace) :=
  getSeq (msg.map (normalizeVar reg)) script

/-! ## Result assembler (`beseech.addProperties` / `putNested`,
lines 200-238)

JS objects are modelled as ordered association lists of string keys;
the values the assembler handles are strings, nested objects, or
`undefined` (absent). -/

/-- A JS value as far as the assembler observes it. -/
inductive JsVal
  | undef
  | str (s : String)
  | obj (fields : List (String × JsVal))

/-- Property read on an association list: first matching key. -/
def getAssoc : List (String × JsVal) → String → JsVal
  | [], _ => JsVal.undef
  | (k0, v0) :: rest, k => if k0 = k then v0 else getAssoc rest k

/-- JS `o[k]`: `undefined` on a missing key or a non-object receiver. -/
def getKey : JsVal → String → JsVal
  | JsVal.obj fs, k => getAssoc fs k
  | _, _ => JsVal.undef

/-- Property write on an association list: replace in place or append. -/
def setAssoc : List (String × JsVal) → String → JsVal → List (String × JsVal)
  | [], k, v => [(k, v)]
  | (k0, v0) :: rest, k, v =>
    if k0 = k then (k0, v) :: rest else (k0, v0) :: setAssoc rest k v

/-- JS `o[k] = v`: assignment on a primitive is silently ignored
(non-strict mode). -/
def setKey : JsVal → String → JsVal → JsVal
  | JsVal.obj fs, k, v => JsVal.obj (setAssoc fs k v)
  | o, _, _ => o

/-- JS truthiness of the values the assembler can encounter. -/
def truthy : JsVal → Bool
  | JsVal.undef => false
  | JsVal.str s => s ≠ ""
  | JsVal.obj _ => true

/-- `typeof v === 'undefined'`. -/
def isUndef : JsVal → Bool
  | JsVal.undef => true
  | _ => false

/-- `putNested(obj, path, value)`: descend along `path`, replacing a
falsy intermediate with a fresh `{}` and descending into a truthy one,
then assign the leaf unconditionally.  A truthy primitive intermediate
makes the descent land on `undefined` (the ignored write leaves the
primitive's property undefined), and any further access on `undefined`
throws, modelled by `none`. -/
def putNested (o : JsVal) (path : List String) (v : JsVal) : Option JsVal :=
  match path with
  | [] => some o
  | [k] =>
    match o with
    | JsVal.undef => none
    | _ => some (setKey o k v)
  | k :: p :: rest =>
    match o with
    | JsVal.obj _ =>
      let child := getKey o k
      let child2 := if truthy child then child else JsVal.obj []
      (putNested child2 (p :: rest) v).map (setKey o k)
    | JsVal.str _ => putNested JsVal.undef (p :: rest) v
    | JsVal.undef => none

/-- `Object.keys(results).forEach(key => putNested(obj, key.split('.'),
results[key]))`, in insertion order. -/
def mergeResults (obj : JsVal) (results : List (String × String)) : Option JsVal :=
  results.foldl
    (fun acc kv => acc.bind (fun o => putNested o (jsSplitDot kv.1) (JsVal.str kv.2)))
    (some obj)

/-- First argument of the continuation `addProperties` invokes. -/
inductive CbArg
  | null
  | err (e : String)
  | val (v : JsVal)

/-- One continuation invocation: its first argument and the optional
second (result) argument. -/
structure CbCall where
  fst : CbArg
  snd : Option JsVal

/-- The filter step: keep only the properties whose literal key is
undefined on the target. -/
def addPropsFilter (obj : JsVal) (props : List String) : List String :=
  props.filter (fun p => isUndef (getKey obj p))

/-- `beseech.addProperties`: filter, then either call back immediately
with the target in the first (error) slot, or run the batch driver and
merge the results into the target.  Returns the continuation call and
the prompt writes performed; `none` when the run is still pending or
the merge threw. -/
def addProperties (reg : String → Option Field) (obj : JsVal)
    (props : List String) (script : Script) : Option (CbCall × List String) :=
  let props2 := addPropsFilter obj props
  if props2 = [] then some ({ fst := CbArg.val obj, snd := none }, [])
  else
    match get reg (props2.map FieldRef.name) script with
    | none => none
    | some (Except.error e, _, tr) =>
      some ({ fst := CbArg.err e, snd := none }, tr.prompts)
    | some (Except.ok results, _, tr) =>
      match mergeResults obj results with
      | none => none
      | some obj2 => some ({ fst := CbArg.null, snd := some obj2 }, tr.prompts)

/-! ## Session lifecycle (`beseech.start`, lines 52-67) -/

/-- The process-wide session state: the `started` / `paused` flags,
whether streams are bound, and how many SIGINT handlers have been
registered. -/
structure Session where
  started : Bool
  paused : Bool
  stdinBound : Bool
  stdoutBound : Bool
  sigintHandlers : Nat
deriving DecidableEq, Repr

/-- `beseech.start`: an early `return;` (yielding `undefined`, modelled
`none`) when already started; otherwise bind the streams, register the
SIGINT handler, set `started` and return the session handle
(`return beseech`, modelled `some ()`). -/
def start (s : Session) : Session × Option Unit :=
  if s.started then (s, none)
  else
    ({ s with
        started := true
        stdinBound := true
        stdoutBound := true
        sigintHandlers := s.sigintHandlers + 1 }, some ())

/-- A session before any `start` call. -/
def freshSession : Session :=
  { started := false, paused := false, stdinBound := false
    stdoutBound := false, sigintHandlers := 0 }

end Beseech

namespace Beseech

/-- C1: the cooked reader on the single chunk `"first\nsecond\n"`.
The handler computes the carry `"\nsecond\n"` but resolves the callback
with the trim of the whole accumulation, `"first\nsecond"`, not with
`"first"`; and because the carry buffer is a per-call local, a second
call with no further stream data stays pending instead of resolving with
`"second"`. -/
theorem readLine_firstSecond_eval :
    readLineData "" "" "first\nsecond\n" = Sum.inr ("first\nsecond", "\nsecond\n") ∧
    readLineCall ["first\nsecond\n"] = some ("first\nsecond", []) ∧
    readLineCall [] = none ∧
    ("first\nsecond" : String) ≠ "first" := by
  refine ⟨?_, ?_, rfl, ?_⟩ <;> first | rfl | decide

/-- C6: the hidden reader's `data` handler writes nothing and invokes no
callback for an ordinary character (no echo), and on a terminator chunk
performs, in source order: restore cooked mode, detach both listeners,
write exactly one newline, flush, pause input, invoke the callback with
the trimmed accumulated value. -/
theorem readLineHidden_terminator_effects (v b c : String) :
    (isTerminatorChunk c = true →
      rlhHandleData v b c = ((jsTrim v, b),
        [Eff.setRawMode false, Eff.removeData, Eff.removeError,
         Eff.write "\n", Eff.flush, Eff.pause,
         Eff.callback (Except.ok (jsTrim v))])) ∧
    (isTerminatorChunk c = false → isInterruptChunk c = false →
      rlhHandleData v b c = ((v ++ b ++ c, ""), [])) := by
  constructor
  · intro h
    simp [rlhHandleData, h]
  · intro h1 h2
    simp [rlhHandleData, h1, h2]

/-- Witness for C6 at a concrete hidden read: the character `"s"` is
processed silently, and the terminator `"\n"` produces exactly the
effect list of the source. -/
theorem readLineHidden_terminator_effects_witness :
    rlhHandleData "s" "" "e" = (("s" ++ "" ++ "e", ""), []) ∧
    rlhHandleData "secret" "" "\n" = ((jsTrim "secret", ""),
      [Eff.setRawMode false, Eff.removeData, Eff.removeError,
       Eff.write "\n", Eff.flush, Eff.pause,
       Eff.callback (Except.ok (jsTrim "secret"))]) :=
  ⟨(readLineHidden_terminator_effects "s" "" "e").2 (by decide) (by decide),
   (readLineHidden_terminator_effects "secret" "" "\n").1 (by decide)⟩

/-- C10: a stream error event invokes the callback with the error but
removes no listener, does not pause the session and does not restore
raw mode — the state is unchanged except for the recorded callback —
so a chunk delivered after the error is still processed by the aborted
read, for both the cooked and the hidden reader. -/
theorem stream_error_keeps_listeners (st st2 : RState) (e res b chunk : String)
    (h1 : st.errAttached = true) (h2 : st2.errAttached = true)
    (h3 : st2.exited = false) :
    rlStep st (InEvent.errorEvt e) =
      { st with calls := st.calls ++ [Except.error e] } ∧
    rlhStep st2 (InEvent.errorEvt e) =
      { st2 with calls := st2.calls ++ [Except.error e] } ∧
    (readLineData "" "" chunk = Sum.inr (res, b) →
      (runEvents rlStep rlInit
          [InEvent.errorEvt e, InEvent.data chunk]).calls
        = [Except.error e, Except.ok res]) ∧
    (rlhStep rlhInit (InEvent.errorEvt e)).rawMode = true ∧
    (runEvents rlhStep rlhInit
        [InEvent.errorEvt e, InEvent.data "a", InEvent.data "\n"]).calls
      = [Except.error e, Except.ok "a"] := by
  refine ⟨?_, ?_, ?_, ?_, ?_⟩
  · simp [rlStep, h1]
  · simp [rlhStep, h2, h3]
  · intro h
    simp [runEvents, rlStep, rlInit, h]
  · rfl
  · rfl

/-- Whether an optional validator accepts a line (no validator accepts
everything). -/
def optPasses : Option Validator → String → Bool
  | some v, l => runValidator v l
  | none, _ => true

/-- With a default present, the empty submitted line is replaced by the
default (when the default is the empty string the line is already equal
to it). -/
theorem substDefault_empty (f : Field) (d : String) (hd : f.dflt = some d) :
    substDefault f "" = d := by
  simp only [substDefault, hd, if_pos rfl]
  by_cases h : d = ""
  · simp [h]
  · simp [h]

/-- A concrete validated field used to instantiate the loop theorems. -/
def portField : Field :=
  { name := "port"
    validator := some (Validator.pred fun s => decide (s = "22"))
    warning := some "must be 22" }

/-- C4: with a validator present, a submitted line that fails it (after
default substitution) makes `getInput` log the invalid-input error plus
the warning and re-run the same prompt on the rest of the script, with
the retry's outcome as the field's outcome; the field resolves with a
line only if that line passes the validator; and an error outcome only
ever originates from a stream error in the script, never from a
validation failure.  The validator is an arbitrary pattern-style or
predicate-style `Validator`. -/
theorem getInput_invalid_retries (f : Field) (v : Validator)
    (hv : f.validator = some v) :
    (∀ line rest, runValidator v (substDefault f line) = false →
      getInput f (Except.ok line :: rest) =
        match getInput f rest with
        | none => none
        | some (res, rem, tr) =>
          some (res, rem,
            GTrace.append { attemptTrace f with errlogs := invalidLogs f } tr)) ∧
    (∀ (script : Script) (l : String) (rem : Script) (tr : GTrace),
      getInput f script = some (Except.ok l, rem, tr) →
      runValidator v l = true) ∧
    (∀ (script : Script) (e : String) (rem : Script) (tr : GTrace),
      getInput f script = some (Except.error e, rem, tr) →
      Except.error e ∈ script) := by
  refine ⟨?_, ?_, ?_⟩
  · intro line rest h
    simp [getInput, hv, h]
  · intro script
    induction script with
    | nil =>
      intro l rem tr h
      simp [getInput] at h
    | cons r rest ih =>
      intro l rem tr h
      cases r with
      | error e => simp [getInput] at h
      | ok line =>
        simp only [getInput, hv] at h
        by_cases hval : runValidator v (substDefault f line) = true
        · simp only [hval, if_true] at h
          simp only [Option.some.injEq, Prod.mk.injEq, Except.ok.injEq] at h
          obtain ⟨h1, -, -⟩ := h
          exact h1 ▸ hval
        · have hf : runValidator v (substDefault f line) = false :=
            Bool.eq_false_iff.mpr hval
          simp only [hf, Bool.false_eq_true, if_false] at h
          cases hm : getInput f rest with
          | none => rw [hm] at h; simp at h
          | some trip =>
            obtain ⟨res, rem2, tr2⟩ := trip
            rw [hm] at h
            simp only [Option.some.injEq, Prod.mk.injEq] at h
            obtain ⟨h1, -, -⟩ := h
            exact ih l rem2 tr2 (by rw [hm, h1])
  · intro script
    induction script with
    | nil =>
      intro e rem tr h
      simp [getInput] at h
    | cons r rest ih =>
      intro e rem tr h
      cases r with
      | error e2 =>
        simp only [getInput, Option.some.injEq, Prod.mk.injEq,
          Except.error.injEq] at h
        obtain ⟨h1, -, -⟩ := h
        simp [h1]
      | ok line =>
        simp only [getInput, hv] at h
        by_cases hval : runValidator v (substDefault f line) = true
        · simp only [hval, if_true] at h
          simp at h
        · have hf : runValidator v (substDefault f line) = false :=
            Bool.eq_false_iff.mpr hval
          simp only [hf, Bool.false_eq_true, if_false] at h
          cases hm : getInput f rest with
          | none => rw [hm] at h; simp at h
          | some trip =>
            obtain ⟨res, rem2, tr2⟩ := trip
            rw [hm] at h
            simp only [Option.some.injEq, Prod.mk.injEq] at h
            obtain ⟨h1, -, -⟩ := h
            exact List.mem_cons_of_mem _ (ih e rem2 tr2 (by rw [hm, h1]))

/-- Witness for C4: against `portField`, the rejected line `"bad"`
leaves the read pending when the script ends (no resolution, no error),
and a resolved line did pass the validator. -/
theorem getInput_invalid_retries_witness :
    getInput portField [Except.ok "bad"] = none ∧
    runValidator (Validator.pred fun s => decide (s = "22")) "22" = true := by
  constructor
  · exact (getInput_invalid_retries portField
      (Validator.pred fun s => decide (s = "22")) rfl).1 "bad" [] (by decide)
  · exact (getInput_invalid_retries portField
      (Validator.pred fun s => decide (s = "22")) rfl).2.1
      [Except.ok "bad", Except.ok "22"] "22" []
      (GTrace.append { attemptTrace portField with errlogs := invalidLogs portField }
        { attemptTrace portField with inputs := ["22"] }) rfl

/-- C5: when the submitted (trimmed) line is empty, a field whose
default passes its validator (in particular any field with a default
and no validator) resolves with the default value, and a field without
a default resolves with the empty string. -/
theorem getInput_default_substitution (f g : Field) (d : String) (rest : Script) :
    (f.dflt = some d → optPasses f.validator d = true →
      getInput f (Except.ok "" :: rest) =
        some (Except.ok d, rest, { attemptTrace f with inputs := [d] })) ∧
    (g.dflt = none → optPasses g.validator "" = true →
      getInput g (Except.ok "" :: rest) =
        some (Except.ok "", rest, { attemptTrace g with inputs := [""] })) := by
  constructor
  · intro hd hv
    have hs : substDefault f "" = d := substDefault_empty f d hd
    cases hval : f.validator with
    | none => simp [getInput, hval, hs]
    | some v =>
      rw [hval] at hv
      simp only [optPasses] at hv
      simp [getInput, hval, hs, hv]
  · intro hn hv
    have hs : substDefault g "" = "" := by simp [substDefault, hn]
    cases hval : g.validator with
    | none => simp [getInput, hval, hs]
    | some v =>
      rw [hval] at hv
      simp only [optPasses] at hv
      simp [getInput, hval, hs, hv]

/-- Fields used to instantiate the batch-driver theorems. -/
def hostField : Field :=
  { name := "host", dflt := some "localhost" }

/-- Witness for C5: `hostField` (default `"localhost"`, no validator)
resolves an empty line with `"localhost"`; a bare field resolves it
with `""`. -/
theorem getInput_default_substitution_witness :
    getInput hostField [Except.ok ""] =
      some (Except.ok "localhost", [],
        { attemptTrace hostField with inputs := ["localhost"] }) ∧
    getInput { name := "x" } [Except.ok ""] =
      some (Except.ok "", [],
        { attemptTrace { name := "x" } with inputs := [""] }) :=
  ⟨(getInput_default_substitution hostField { name := "x" } "localhost" []).1
      rfl rfl,
   (getInput_default_substitution hostField { name := "x" } "localhost" []).2
      rfl rfl⟩

/-- C7: `get` first normalizes its field list — a bare string is
lowercased and, when the lowercased name is registered, replaced by the
registered descriptor — then runs the fields strictly in order; a field
whose read errors makes the whole sequence resolve with that error and
contributes the only trace (no later field is prompted); a successful
run yields the result record keyed by the fields' names, in order. -/
theorem get_sequential_spec :
    (∀ (reg : String → Option Field) (msg : List FieldRef) (script : Script),
      get reg msg script = getSeq (msg.map (normalizeVar reg)) script) ∧
    (∀ (reg : String → Option Field) (s : String) (f : Field),
      reg (jsToLower s) = some f →
      normalizeVar reg (FieldRef.name s) = FieldRef.descr f) ∧
    (∀ (reg : String → Option Field) (s : String),
      reg (jsToLower s) = none →
      normalizeVar reg (FieldRef.name s) = FieldRef.name (jsToLower s)) ∧
    (∀ (f : FieldRef) (rest : List FieldRef) (script : Script) (e : String)
        (rem : Script) (tr : GTrace),
      getInput (refField f) script = some (Except.error e, rem, tr) →
      getSeq (f :: rest) script = some (Except.error e, rem, tr)) ∧
    (∀ (fields : List FieldRef) (script : Script)
        (results : List (String × String)) (rem : Script) (tr : GTrace),
      getSeq fields script = some (Except.ok results, rem, tr) →
      results.map Prod.fst = fields.map refKey) := by
  refine ⟨fun _ _ _ => rfl, ?_, ?_, ?_, ?_⟩
  · intro reg s f h
    simp [normalizeVar, h]
  · intro reg s h
    simp [normalizeVar, h]
  · intro f rest script e rem tr h
    simp [getSeq, h]
  · intro fields
    induction fields with
    | nil =>
      intro script results rem tr h
      simp only [getSeq, Option.some.injEq, Prod.mk.injEq,
        Except.ok.injEq] at h
      obtain ⟨h1, -, -⟩ := h
      simp [← h1]
    | cons f rest ih =>
      intro script results rem tr h
      simp only [getSeq] at h
      cases hm : getInput (refField f) script with
      | none => rw [hm] at h; simp at h
      | some trip =>
        obtain ⟨res, rem1, tr1⟩ := trip
        rw [hm] at h
        cases res with
        | error e => simp at h
        | ok line =>
          dsimp only at h
          cases hm2 : getSeq rest rem1 with
          | none => rw [hm2] at h; simp at h
          | some trip2 =>
            obtain ⟨res2, rem2, tr2⟩ := trip2
            rw [hm2] at h
            cases res2 with
            | error e => simp at h
            | ok results2 =>
              simp only [Option.some.injEq, Prod.mk.injEq,
                Except.ok.injEq] at h
              obtain ⟨h1, -, -⟩ := h
              subst h1
              simp [ih rem1 results2 rem2 tr2 (by rw [hm2])]

/-- Witness for C7 on the spec's own example: fields `["host","port"]`
with inputs `"localhost"`, `"5432"` resolve in order to the record
`[("host","localhost"),("port","5432")]`, whose keys are the field
names; registry lookup replaces the lowercased `"HOST"`; and a stream
error on the first field aborts the sequence with that error. -/
theorem get_sequential_spec_witness :
    (List.map Prod.fst [("host", "localhost"), ("port", "5432")]
      = List.map refKey [FieldRef.name "host", FieldRef.name "port"]) ∧
    normalizeVar (fun s => if s = "host" then some hostField else none)
        (FieldRef.name "HOST") = FieldRef.descr hostField ∧
    getSeq [FieldRef.name "host", FieldRef.name "port"]
        [Except.error "io"] = some (Except.error "io", [],
          attemptTrace { name := "host" }) := by
  refine ⟨?_, ?_, ?_⟩
  · exact get_sequential_spec.2.2.2.2
      [FieldRef.name "host", FieldRef.name "port"]
      [Except.ok "localhost", Except.ok "5432"]
      [("host", "localhost"), ("port", "5432")] []
      (GTrace.append { attemptTrace { name := "host" } with inputs := ["localhost"] }
        (GTrace.append { attemptTrace { name := "port" } with inputs := ["5432"] }
          GTrace.empty)) rfl
  · exact get_sequential_spec.2.1
      (fun s => if s = "host" then some hostField else none) "HOST" hostField rfl
  · exact get_sequential_spec.2.2.2.1 (FieldRef.name "host")
      [FieldRef.name "port"] [Except.error "io"] "io" []
      (attemptTrace { name := "host" }) rfl

/-- The spec's example target `{db:{host:"x"}}`. -/
def dbObj : JsVal :=
  JsVal.obj [("db", JsVal.obj [("host", JsVal.str "x")])]

/-- C2 counterexample: on target `{db:{host:"x"}}` and property
`"db.host"`, the literal key `"db.host"` is undefined on the target, so
the property is NOT skipped: a prompt is issued and the answer `"y"`
overwrites the nested value — the claim's example fails on the code. -/
theorem addProperties_nested_prompts :
    addProperties (fun _ => none) dbObj ["db.host"] [Except.ok "y"]
      = some ({ fst := CbArg.null
                snd := some (JsVal.obj [("db", JsVal.obj [("host", JsVal.str "y")])]) },
          ["prompt: db.host: "]) ∧
    getKey (getKey dbObj "db") "host" = JsVal.str "x" ∧
    ["prompt: db.host: "] ≠ ([] : List String) := by
  refine ⟨rfl, rfl, by decide⟩

/-- C2 amended: the filter tests the literal (flat) key
`typeof obj[prop] === 'undefined'`; a property whose literal key is
defined is never prompted for, and when every requested property is
flat-defined no prompt is issued and the target is returned unchanged. -/
theorem addProperties_flat_skip (reg : String → Option Field) (obj : JsVal)
    (props : List String) (script : Script) :
    ((∀ p ∈ props, isUndef (getKey obj p) = false) →
      addProperties reg obj props script
        = some ({ fst := CbArg.val obj, snd := none }, [])) ∧
    (∀ p, isUndef (getKey obj p) = false → p ∉ addPropsFilter obj props) := by
  constructor
  · intro h
    have hf : addPropsFilter obj props = [] := by
      rw [addPropsFilter, List.filter_eq_nil_iff]
      intro a ha
      simp [h a ha]
    simp [addProperties, hf]
  · intro p hp hmem
    rw [addPropsFilter] at hmem
    have h2 := (List.mem_filter.mp hmem).2
    rw [hp] at h2
    exact Bool.false_ne_true h2

/-- Witness for C2 amended: on target `{a:"1"}` the flat-defined
property `"a"` is skipped, no prompt is issued, and the target comes
back unchanged in the first callback slot. -/
theorem addProperties_flat_skip_witness :
    addProperties (fun _ => none) (JsVal.obj [("a", JsVal.str "1")]) ["a"] []
      = some ({ fst := CbArg.val (JsVal.obj [("a", JsVal.str "1")])
                snd := none }, []) ∧
    "a" ∉ addPropsFilter (JsVal.obj [("a", JsVal.str "1")]) ["a"] := by
  constructor
  · exact (addProperties_flat_skip (fun _ => none)
      (JsVal.obj [("a", JsVal.str "1")]) ["a"] []).1
      (by intro p hp; simp at hp; subst hp; rfl)
  · exact (addProperties_flat_skip (fun _ => none)
      (JsVal.obj [("a", JsVal.str "1")]) ["a"] []).2 "a" rfl

/-- C3 counterexample: merging the result record `{"db.host":"y"}` into
the target `{db:{host:"x"}}` overwrites the already-defined leaf
`db.host`. -/
theorem merge_overwrites_nested :
    mergeResults dbObj [("db.host", "y")]
      = some (JsVal.obj [("db", JsVal.obj [("host", JsVal.str "y")])]) ∧
    getKey (getKey dbObj "db") "host" = JsVal.str "x" ∧
    JsVal.str "x" ≠ JsVal.str "y" := by
  refine ⟨rfl, rfl, ?_⟩
  intro h
  injection h with h2
  exact absurd h2 (by decide)

/-- Setting a key yields that key's new value. -/
theorem getAssoc_setAssoc_self (fs : List (String × JsVal)) (k : String)
    (v : JsVal) : getAssoc (setAssoc fs k v) k = v := by
  induction fs with
  | nil => simp [setAssoc, getAssoc]
  | cons hd rest ih =>
    obtain ⟨k0, v0⟩ := hd
    by_cases h : k0 = k
    · simp [setAssoc, getAssoc, h]
    · simp [setAssoc, getAssoc, h, ih]

/-- Setting a key leaves every other key unchanged. -/
theorem getAssoc_setAssoc_ne (fs : List (String × JsVal)) (k k2 : String)
    (v : JsVal) (h : k2 ≠ k) :
    getAssoc (setAssoc fs k v) k2 = getAssoc fs k2 := by
  induction fs with
  | nil => simp [setAssoc, getAssoc, Ne.symm h]
  | cons hd rest ih =>
    obtain ⟨k0, v0⟩ := hd
    by_cases h0 : k0 = k
    · subst h0
      simp [setAssoc, getAssoc, Ne.symm h]
    · simp [setAssoc, getAssoc, h0, ih]

/-- C3 amended: the merge step assigns the leaf unconditionally — the
new value always wins, even over a defined one — while every top-level
key other than the head of the dotted path is left untouched. -/
theorem putNested_frame :
    (∀ (fs : List (String × JsVal)) (k : String) (v : JsVal),
      getKey (setKey (JsVal.obj fs) k v) k = v) ∧
    (∀ (obj : JsVal) (k : String) (path : List String) (v : JsVal)
        (obj2 : JsVal) (k2 : String), k2 ≠ k →
      putNested obj (k :: path) v = some obj2 →
      getKey obj2 k2 = getKey obj k2) := by
  constructor
  · intro fs k v
    simp [setKey, getKey, getAssoc_setAssoc_self]
  · intro obj k path v obj2 k2 hne h
    cases path with
    | nil =>
      cases obj with
      | undef => simp [putNested] at h
      | str s =>
        simp only [putNested, Option.some.injEq] at h
        rw [← h]
        rfl
      | obj fs =>
        simp only [putNested, Option.some.injEq] at h
        rw [← h]
        simp [setKey, getKey, getAssoc_setAssoc_ne fs k k2 v hne]
    | cons p rest =>
      cases obj with
      | undef => simp [putNested] at h
      | str s =>
        cases rest with
        | nil => simp [putNested] at h
        | cons q more => simp [putNested] at h
      | obj fs =>
        simp only [putNested] at h
        cases hm : putNested
            (if truthy (getKey (JsVal.obj fs) k) then getKey (JsVal.obj fs) k
             else JsVal.obj []) (p :: rest) v with
        | none => rw [hm] at h; simp at h
        | some c =>
          rw [hm] at h
          simp only [Option.map_some', Option.some.injEq] at h
          rw [← h]
          simp [setKey, getKey, getAssoc_setAssoc_ne fs k k2 c hne]

/-- Witness for C3 amended: setting `db.host` on the example target
leaves the unrelated top-level key `"other"` unchanged, and a direct
leaf assignment replaces the old value. -/
theorem putNested_frame_witness :
    getKey (JsVal.obj [("db", JsVal.obj [("host", JsVal.str "y")])]) "other"
      = getKey dbObj "other" ∧
    getKey (setKey (JsVal.obj [("a", JsVal.str "1")]) "a" (JsVal.str "2")) "a"
      = JsVal.str "2" := by
  constructor
  · exact putNested_frame.2 dbObj "db" ["host"] (JsVal.str "y")
      (JsVal.obj [("db", JsVal.obj [("host", JsVal.str "y")])]) "other"
      (by decide) rfl
  · exact putNested_frame.1 [("a", JsVal.str "1")] "a" (JsVal.str "2")

/-- C9: when every requested property is flat-defined, the continuation
receives the target object in the first (error) slot and nothing else;
every successful run instead passes `null` first and the merged target
second. -/
theorem addProperties_callback_convention (reg : String → Option Field)
    (obj : JsVal) (props : List String) (script : Script) :
    (addPropsFilter obj props = [] →
      addProperties reg obj props script
        = some ({ fst := CbArg.val obj, snd := none }, [])) ∧
    (∀ (results : List (String × String)) (rem : Script) (tr : GTrace)
        (obj2 : JsVal),
      addPropsFilter obj props ≠ [] →
      get reg ((addPropsFilter obj props).map FieldRef.name) script
        = some (Except.ok results, rem, tr) →
      mergeResults obj results = some obj2 →
      addProperties reg obj props script
        = some ({ fst := CbArg.null, snd := some obj2 }, tr.prompts)) := by
  constructor
  · intro h
    simp [addProperties, h]
  · intro results rem tr obj2 h1 h2 h3
    simp [addProperties, h1, h2, h3]

/-- Witness for C9: on `{b:"0"}` with property `"b"` the target itself
is the first callback argument; on `{}` with property `"a"` and answer
`"v"`, `null` is first and the merged target `{a:"v"}` second. -/
theorem addProperties_callback_convention_witness :
    addProperties (fun _ => none) (JsVal.obj [("b", JsVal.str "0")]) ["b"] []
      = some ({ fst := CbArg.val (JsVal.obj [("b", JsVal.str "0")])
                snd := none }, []) ∧
    addProperties (fun _ => none) (JsVal.obj []) ["a"] [Except.ok "v"]
      = some ({ fst := CbArg.null
                snd := some (JsVal.obj [("a", JsVal.str "v")]) },
          ["prompt: a: "]) := by
  constructor
  · exact (addProperties_callback_convention (fun _ => none)
      (JsVal.obj [("b", JsVal.str "0")]) ["b"] []).1 rfl
  · exact (addProperties_callback_convention (fun _ => none)
      (JsVal.obj []) ["a"] [Except.ok "v"]).2 [("a", "v")] []
      (GTrace.append { attemptTrace { name := "a" } with inputs := ["v"] }
        GTrace.empty)
      (JsVal.obj [("a", JsVal.str "v")]) (by decide) rfl rfl

/-- C8 counterexample: the first `start` returns the session handle,
but a second call hits the early `return;` and yields `undefined`, not
the handle — while leaving the state unchanged. -/
theorem start_second_returns_none :
    (start freshSession).2 = some () ∧
    (start (start freshSession).1).2 = none ∧
    (start (start freshSession).1).1 = (start freshSession).1 ∧
    (none : Option Unit) ≠ some () := by
  refine ⟨rfl, rfl, rfl, by decide⟩

/-- C8 amended: `start` is idempotent on the session state — a call on
a started session is a complete no-op returning `undefined` — and only
the first call returns the session handle. -/
theorem start_idempotent_state (s : Session) :
    (s.started = true → start s = (s, none)) ∧
    (s.started = false →
      (start s).2 = some () ∧ (start s).1.started = true ∧
      start (start s).1 = ((start s).1, none)) := by
  constructor
  · intro h
    simp [start, h]
  · intro h
    refine ⟨?_, ?_, ?_⟩ <;> simp [start, h]

/-- Witness for C8 amended at concrete sessions: an already-started
session is left untouched with no handle returned; a fresh one yields
the handle. -/
theorem start_idempotent_state_witness :
    start { freshSession with started := true }
      = ({ freshSession with started := true }, none) ∧
    (start freshSession).2 = some () :=
  ⟨(start_idempotent_state { freshSession with started := true }).1 rfl,
   ((start_idempotent_state freshSession).2 rfl).1⟩

/-- Witness for C10: error `"boom"` then the chunk `"hi\n"` on a fresh
cooked read yields both the error callback and the completed line. -/
theorem stream_error_keeps_listeners_witness :
    rlStep rlInit (InEvent.errorEvt "boom") =
      { rlInit with calls := rlInit.calls ++ [Except.error "boom"] } ∧
    (runEvents rlStep rlInit
        [InEvent.errorEvt "boom", InEvent.data "hi\n"]).calls
      = [Except.error "boom", Except.ok "hi"] := by
  have h := stream_error_keeps_listeners rlInit rlInit "boom" "hi" "\n" "hi\n"
    rfl rfl rfl
  exact ⟨h.1, h.2.2.1 (by decide)⟩

end Beseech
